import Mathlib

/-!
Verification of the crawler scheduling core (rate limiter, work queue,
URL frontier) against its specification.

Conventions of the embedding:
* Go `float64` values (token counts, rates, thresholds) are modelled by
  exact rationals `ℚ`; `time.Time` values are modelled by their Unix
  timestamp (`ℤ` seconds for the distributed window, `ℚ` seconds for the
  continuous token bucket).
* Each Go method that reads the clock receives the current time as an
  explicit argument; each method that can observe a cancelled context
  receives a `Bool` flag (`true` = context already cancelled).
* The Redis sorted set used by the sliding window stores members that are
  the decimal rendering of an integer timestamp, so it is modelled as a
  duplicate-free list of integers (member and score coincide).
* Fallible operations return `Except` with a structured error type whose
  constructors correspond one-to-one to the distinct error returns of the
  source.
-/

namespace JapanBigdata

namespace Ratelimit

/-- Embedding of the `Limiter` struct of `pkg/ratelimit`:
`rate` (tokens per second), `burst`, current `tokens`, `lastUpdate`. -/
structure Limiter where
  rate : ℚ
  burst : ℤ
  tokens : ℚ
  lastUpdate : ℚ
deriving DecidableEq

/-- The refilled token count computed at the top of `Limiter.allow`:
`min(float64(l.burst), l.tokens + elapsed*l.rate)` with
`elapsed = now - l.lastUpdate` in seconds. -/
def Limiter.refill (l : Limiter) (now : ℚ) : ℚ :=
  min (l.burst : ℚ) (l.tokens + (now - l.lastUpdate) * l.rate)

/-- Embedding of `Limiter.allow`: refill continuously, admit and decrement
when at least one token is available (boundary `tokens == 1` admits). -/
def Limiter.allow (l : Limiter) (now : ℚ) : Bool × Limiter :=
  if 1 ≤ l.refill now then
    (true, { l with tokens := l.refill now - 1, lastUpdate := now })
  else
    (false, { l with tokens := l.refill now, lastUpdate := now })

/-- Embedding of `RateLimitController.SetRate`: replaces the limiter for a
domain with a fresh bucket whose token count is `burst`. -/
def setRate (rate : ℚ) (burst : ℤ) (now : ℚ) : Limiter :=
  { rate := rate, burst := burst, tokens := (burst : ℚ), lastUpdate := now }

/-- One client-visible mutation of a single limiter: an `Allow` call or a
`SetRate` override, tagged with the wall-clock time at which it runs. -/
inductive LimOp where
  | allowCall (now : ℚ)
  | setRateCall (rate : ℚ) (burst : ℤ) (now : ℚ)

/-- The wall-clock time at which an operation runs. -/
def LimOp.time : LimOp → ℚ
  | .allowCall now => now
  | .setRateCall _ _ now => now

/-- The state transition a single operation performs on the limiter. -/
def applyOp (l : Limiter) : LimOp → Limiter
  | .allowCall now => (l.allow now).2
  | .setRateCall r b now => setRate r b now

/-- Running a sequence of operations against a limiter. -/
def applyOps (l : Limiter) (ops : List LimOp) : Limiter :=
  ops.foldl applyOp l

/-- Well-formedness of an operation's parameters: `SetRate` overrides use a
nonnegative rate and a nonnegative burst. -/
def OpOk : LimOp → Prop
  | .allowCall _ => True
  | .setRateCall r b _ => 0 ≤ r ∧ 0 ≤ b

/-- The token-bucket invariant together with nonnegativity of the rate. -/
def LimInv (l : Limiter) : Prop :=
  0 ≤ l.tokens ∧ l.tokens ≤ (l.burst : ℚ) ∧ 0 ≤ l.rate

/-- State of one origin's sliding-window sorted set. Members are the
decimal rendering of integer Unix timestamps, and each member's score is
that same timestamp, so the set is represented by a duplicate-free list of
the timestamps present. -/
structure WindowState where
  entries : List ℤ
deriving DecidableEq

/-- Embedding of `RedisClient.ZRemRangeByScore`: remove all members whose
score lies in the inclusive range `[lo, hi]`. -/
def zRemRangeByScore (st : WindowState) (lo hi : ℤ) : WindowState :=
  ⟨st.entries.filter (fun e => !(decide (lo ≤ e ∧ e ≤ hi)))⟩

/-- Embedding of `RedisClient.ZAdd` for this key: the member is the decimal
string of `t`, so adding an already-present timestamp only rewrites its
(unchanged) score and the set does not grow. -/
def zAddTs (st : WindowState) (t : ℤ) : WindowState :=
  if t ∈ st.entries then st else ⟨t :: st.entries⟩

/-- Embedding of `RedisClient.ZCount`: the number of members whose score
lies in the inclusive range `[lo, hi]`. -/
def zCountRange (st : WindowState) (lo hi : ℤ) : ℕ :=
  (st.entries.filter (fun e => decide (lo ≤ e ∧ e ≤ hi))).length

/-- Embedding of `RateLimitController.checkDistributedLimit`: observe a
cancelled context first; otherwise prune `[0, now-windowSize]`, add an
entry at `now`, count `[now-windowSize, now]` and pass unless the count
exceeds `windowLimit`. Returns whether the check passed (no error) and the
updated sorted set. -/
def checkDistributedLimit (ctxCancelled : Bool) (windowSize windowLimit : ℤ)
    (st : WindowState) (now : ℤ) : Bool × WindowState :=
  if ctxCancelled then (false, st)
  else
    let windowStart := now - windowSize
    let st1 := zRemRangeByScore st 0 windowStart
    let st2 := zAddTs st1 now
    let cnt := zCountRange st2 windowStart now
    (decide ((cnt : ℤ) ≤ windowLimit), st2)

/-- A sequence of distributed checks for one origin at the given clock
readings (context live), returning the timestamps of the checks that
passed. -/
def runChecks (windowSize windowLimit : ℤ) (st : WindowState) :
    List ℤ → List ℤ
  | [] => []
  | t :: ts =>
    let r := checkDistributedLimit false windowSize windowLimit st t
    if r.1 then t :: runChecks windowSize windowLimit r.2 ts
    else runChecks windowSize windowLimit r.2 ts

/-- Combined per-origin controller state: the origin's distributed window
and its local token bucket. -/
structure CtrlState where
  win : WindowState
  lim : Limiter
deriving DecidableEq

/-- Embedding of `RateLimitController.Allow` for one origin whose limiter
already exists: run the distributed check first (its failure, including a
cancelled context, rejects without touching the local bucket), then the
local token bucket. -/
def ctrlAllow (ctxCancelled : Bool) (windowSize windowLimit : ℤ)
    (st : CtrlState) (now : ℤ) : Bool × CtrlState :=
  let r := checkDistributedLimit ctxCancelled windowSize windowLimit st.win now
  if r.1 then
    let a := st.lim.allow (now : ℚ)
    (a.1, ⟨r.2, a.2⟩)
  else
    (false, { st with win := r.2 })

/-- Embedding of one origin's step of the adaptive loop body in
`startAdaptiveAdjustment`: compare `throttled/requests` against the
threshold and rescale the rate by 0.8 (floored at `minRate`) or 1.2
(capped at `maxRate`). -/
def adjustRateOnce (throttleThreshold minRate maxRate : ℚ) (rate : ℚ)
    (throttled requests : ℤ) : ℚ :=
  if throttleThreshold < (throttled : ℚ) / (requests : ℚ) then
    max (rate * 0.8) minRate
  else if (throttled : ℚ) / (requests : ℚ) < throttleThreshold / 2 then
    min (rate * 1.2) maxRate
  else rate

/-- The half-open window of length `W` ending at `hi`, as a Boolean
predicate on timestamps. -/
def inWin (hi W s : ℤ) : Bool := decide (hi - W < s ∧ s ≤ hi)

end Ratelimit

namespace UrlCtl

/-- Structured rendering of the distinct error returns of the URL
controller (`pkg/url/url_controller.go`). `parseFailed` is `url.Parse`
failing, `redisNil` is the fast store's missing-key/empty-list error, and
`noPending` is the single generic error `GetNextURL` returns itself. -/
inductive UErr where
  | parseFailed
  | depthExceeded
  | filtered
  | duplicate
  | ctxCanceled
  | redisNil
  | noPending
deriving DecidableEq

/-- Embedding of `URLItem`. -/
structure URLItem where
  url : String
  depth : ℤ
  priority : ℤ
  status : String
  createdAt : ℤ
  updatedAt : ℤ
deriving DecidableEq

/-- The configuration fields of the URL controller that its operations
read: `MaxDepth` and `MaxPriority` (the Go `int` loop bound is modelled as
a natural number since the scan runs from it down to 0). -/
structure UConfig where
  maxDepth : ℤ
  maxPriority : ℕ

/-- The controller-visible fast-store state: the dedup set
(`prefix:urls`), the per-priority lists (`prefix:priority:<p>`), and the
string keys `prefix:url:<u>` read by `getURLItem` (holding, when present,
a decoded URL record; the constant key prefix is elided). -/
structure UState where
  dedup : List String
  buckets : ℤ → List String
  stringKV : String → Option URLItem

/-- The empty fast store backing a fresh frontier. -/
def uInit : UState := ⟨[], fun _ => [], fun _ => none⟩

/-- The `URLItem` literal built inside `AddURL` (status `pending`, both
timestamps `time.Now()`). -/
def mkItem (u : String) (d p now : ℤ) : URLItem :=
  ⟨u, d, p, "pending", now, now⟩

/-- Running the registered filters in order; `AddURL` rejects on the first
veto, which is equivalent to requiring all filters to allow. -/
def passFilters (filters : List (URLItem → Bool)) (it : URLItem) : Bool :=
  filters.all (fun f => f it)

/-- Embedding of `URLController.exists`: context check, then `SIsMember`
on the dedup set. -/
def existsURL (ctxCancelled : Bool) (st : UState) (u : String) :
    Except UErr Bool :=
  if ctxCancelled then .error .ctxCanceled
  else .ok (decide (u ∈ st.dedup))

/-- Embedding of `URLController.saveURL`: context check, `SAdd` of the
normalized URL into the dedup set, `RPush` of the URL onto its priority
bucket. No other key is written; in particular the `prefix:url:<u>`
string key is left untouched. -/
def saveURL (ctxCancelled : Bool) (st : UState) (it : URLItem) :
    Except UErr UState :=
  if ctxCancelled then .error .ctxCanceled
  else .ok
    { st with
      dedup := if it.url ∈ st.dedup then st.dedup else st.dedup ++ [it.url]
      buckets := fun q =>
        if q = it.priority then st.buckets q ++ [it.url] else st.buckets q }

/-- Embedding of `URLController.AddURL`. `normalize` is the abstract
deterministic normalization `normalizeURL` performs through the external
`net/url` parser (parse, strip fragment, default empty path to `/`);
`none` models a parse failure. The checks run in source order:
normalization, depth ceiling, filters, dedup membership, save. -/
def addURL (cfg : UConfig) (filters : List (URLItem → Bool))
    (normalize : String → Option String) (ctxCancelled : Bool)
    (st : UState) (rawURL : String) (depth priority now : ℤ) :
    Except UErr UState :=
  match normalize rawURL with
  | none => .error .parseFailed
  | some n =>
    if cfg.maxDepth < depth then .error .depthExceeded
    else if passFilters filters (mkItem n depth priority now) then
      match existsURL ctxCancelled st n with
      | .error e => .error e
      | .ok true => .error .duplicate
      | .ok false => saveURL ctxCancelled st (mkItem n depth priority now)
    else .error .filtered

/-- Embedding of `URLController.getURLByPriority`: context check, `LPop`
of the priority bucket (missing key/empty list is the fast store's nil
error), and the popped URL wrapped in a fresh item whose other fields take
their zero values. -/
def getURLByPriority (ctxCancelled : Bool) (st : UState) (p : ℤ) :
    Except UErr (URLItem × UState) :=
  if ctxCancelled then .error .ctxCanceled
  else
    match st.buckets p with
    | [] => .error .redisNil
    | u :: rest =>
      .ok (⟨u, 0, p, "pending", 0, 0⟩,
        { st with buckets := fun q => if q = p then rest else st.buckets q })

/-- The countdown loop of `GetNextURL`: try the bucket at the given
priority, and on any error (store miss or cancelled context) fall through
to the next lower priority; after bucket 0, return the single generic
no-pending error. -/
def scanPriority (ctxCancelled : Bool) (st : UState) :
    ℕ → Except UErr (URLItem × UState)
  | 0 =>
    match getURLByPriority ctxCancelled st 0 with
    | .ok r => .ok r
    | .error _ => .error .noPending
  | n + 1 =>
    match getURLByPriority ctxCancelled st ((n + 1 : ℕ) : ℤ) with
    | .ok r => .ok r
    | .error _ => scanPriority ctxCancelled st n

/-- Embedding of `URLController.GetNextURL`: scan the priority buckets
from `MaxPriority` down to 0. -/
def getNextURL (cfg : UConfig) (ctxCancelled : Bool) (st : UState) :
    Except UErr (URLItem × UState) :=
  scanPriority ctxCancelled st cfg.maxPriority

/-- Embedding of `URLController.getURLItem`: context check, then `Get` of
the `prefix:url:<u>` string key; a missing key is the store's nil error. -/
def getURLItem (ctxCancelled : Bool) (st : UState) (u : String) :
    Except UErr URLItem :=
  if ctxCancelled then .error .ctxCanceled
  else
    match st.stringKV ("url:" ++ u) with
    | none => .error .redisNil
    | some it => .ok it

/-- Embedding of `URLController.UpdateStatus`: read the stored record via
`getURLItem`, set the new status and `UpdatedAt`, write back via
`saveURL`. -/
def updateStatus (ctxCancelled : Bool) (st : UState) (u status : String)
    (now : ℤ) : Except UErr UState :=
  match getURLItem ctxCancelled st u with
  | .error e => .error e
  | .ok it => saveURL ctxCancelled st { it with status := status, updatedAt := now }

/-- Instantiation of the abstract normalization for URLs that are already
in normal form (no fragment, nonempty path), on which the Go
`normalizeURL` round-trip is the identity. -/
def normSelf : String → Option String := fun s => some s

/-- The state transition of one `GetNextURL` call with a live context
(state unchanged when it errors). -/
def getStep (cfg : UConfig) (st : UState) : UState :=
  match getNextURL cfg false st with
  | .ok r => r.2
  | .error _ => st

/-- Whether a fallible operation succeeded. -/
def isOkE {ε α : Type} : Except ε α → Bool
  | .ok _ => true
  | .error _ => false

/-- The error of a fallible operation, if any. -/
def errOf {ε α : Type} : Except ε α → Option ε
  | .ok _ => none
  | .error e => some e

/-- The success state of a fallible frontier operation, defaulting to the
empty store. -/
def okStateD : Except UErr UState → UState
  | .ok s => s
  | .error _ => uInit

end UrlCtl

namespace Queue

/-- Embedding of `QueueItem` (`pkg/queue`): the generated unique id is
modelled by a counter, the opaque payload by a number (the claims only
need it to be carried through re-pushes). -/
structure QItem where
  id : ℕ
  payload : ℕ
  retries : ℕ
  status : String
  errMsg : String
deriving DecidableEq

/-- Queue-controller-visible state: the fast-store lists keyed by name
(`pending` is the work buffer, `processing` receives the status-transition
copies written by `updateItem`), the two durable archive collections, the
total number of handler invocations, and the id counter. The fire-and-
forget upsert of the main durable collection in `persistToMongo` is
asynchronous and outside the claims, so it is elided. -/
structure QState where
  rlists : String → List QItem
  failedArch : List QItem
  completedArch : List QItem
  invocations : ℕ
  nextId : ℕ

/-- The empty queue backing a fresh controller. -/
def qInit : QState := ⟨fun _ => [], [], [], 0, 0⟩

/-- Embedding of `QueueController.Push`: build a fresh item with a fresh
id, `Retries = 0` and status `pending`, and `RPush` it onto the pending
list. -/
def push (st : QState) (payload : ℕ) : QState :=
  { st with
    rlists := fun k =>
      if k = "pending" then
        st.rlists k ++ [⟨st.nextId, payload, 0, "pending", ""⟩]
      else st.rlists k
    nextId := st.nextId + 1 }

/-- Embedding of `QueueController.handleSuccess` (never reached when the
registered handler always fails): archive the completed item. -/
def handleSuccess (st : QState) (item : QItem) : QState :=
  { st with
    completedArch := st.completedArch ++ [{ item with status := "completed" }] }

/-- One iteration of `QueueController.worker` under the premise of the
retry-ceiling scenario: the popped item's registered handler exists and
returns an error on every invocation. The iteration pops the pending
head (doing nothing when the queue is empty, as the worker just sleeps),
transitions it to `processing` (`updateItem` appends the copy to the
processing list), invokes the handler (which fails), and runs
`handleFailure`: `Retries++`; if `Retries < MaxRetries` the item is
re-enqueued through `Push(item.Data)` — a fresh item with a fresh id and
`Retries = 0` — otherwise it is archived to the failed collection. -/
def workerCycleFail (maxRetries : ℕ) (st : QState) : QState :=
  match st.rlists "pending" with
  | [] => st
  | item :: rest =>
    let st1 : QState :=
      { st with rlists := fun k => if k = "pending" then rest else st.rlists k }
    let item1 : QItem := { item with status := "processing" }
    let st2 : QState :=
      { st1 with rlists := fun k =>
          if k = "processing" then st1.rlists k ++ [item1] else st1.rlists k }
    let st3 : QState := { st2 with invocations := st2.invocations + 1 }
    let item2 : QItem :=
      { item1 with
        status := "failed"
        errMsg := "handler error"
        retries := item1.retries + 1 }
    if item2.retries < maxRetries then
      push st3 item2.payload
    else
      { st3 with failedArch := st3.failedArch ++ [item2] }

/-- The shape the queue state keeps throughout the failing-handler run
with `maxRetries = 2`: one pending copy with `Retries = 0`, and both
archives empty. -/
def retryLoopInv (st : QState) : Prop :=
  (∃ it : QItem, st.rlists "pending" = [it] ∧ it.retries = 0)
  ∧ st.failedArch = [] ∧ st.completedArch = []

end Queue

namespace Ratelimit

theorem allow_lastUpdate (l : Limiter) (now : ℚ) :
    ((l.allow now).2).lastUpdate = now := by
  unfold Limiter.allow
  split <;> rfl

theorem allow_preserves_inv (l : Limiter) (now : ℚ)
    (h : LimInv l) (ht : l.lastUpdate ≤ now) : LimInv ((l.allow now).2) := by
  obtain ⟨h0, hb, hr⟩ := h
  have hb0 : (0 : ℚ) ≤ (l.burst : ℚ) := le_trans h0 hb
  have hrefill0 : 0 ≤ l.refill now := by
    unfold Limiter.refill
    apply le_min hb0
    have : 0 ≤ (now - l.lastUpdate) * l.rate :=
      mul_nonneg (by linarith) hr
    linarith
  have hrefillb : l.refill now ≤ (l.burst : ℚ) := min_le_left _ _
  unfold Limiter.allow
  split
  · exact ⟨by simpa using by linarith [hrefill0], by simpa using by linarith [hrefillb], hr⟩
  · exact ⟨by simpa using hrefill0, by simpa using hrefillb, hr⟩

theorem setRate_inv (r : ℚ) (b : ℤ) (t : ℚ) (hr : 0 ≤ r) (hb : 0 ≤ b) :
    LimInv (setRate r b t) := by
  refine ⟨?_, le_refl _, hr⟩
  show (0 : ℚ) ≤ (b : ℚ)
  exact_mod_cast hb

theorem applyOps_inv (l : Limiter) (ops : List LimOp)
    (hInv : LimInv l) (hops : ∀ op ∈ ops, OpOk op)
    (htimes : List.Chain (· ≤ ·) l.lastUpdate (ops.map LimOp.time)) :
    LimInv (applyOps l ops) := by
  induction ops generalizing l with
  | nil => exact hInv
  | cons op ops ih =>
    simp only [List.map_cons] at htimes
    cases htimes with
    | cons hle hchain =>
      have hInv' : LimInv (applyOp l op) := by
        cases op with
        | allowCall now => exact allow_preserves_inv l now hInv hle
        | setRateCall r b now =>
          have := hops _ (List.mem_cons_self _ _)
          exact setRate_inv r b now this.1 this.2
      have hlast : (applyOp l op).lastUpdate = op.time := by
        cases op with
        | allowCall now => exact allow_lastUpdate l now
        | setRateCall r b now => rfl
      have := ih (applyOp l op) hInv'
        (fun o ho => hops o (List.mem_cons_of_mem _ ho))
        (by rw [hlast]; exact hchain)
      simpa [applyOps] using this

/-- C9: a limiter with rate 1 and burst 3 starting full, with the
distributed window not limiting (window limit 100): three immediate
`Allow` calls succeed, the fourth immediate call is throttled, and a fifth
call one second later succeeds on the refilled boundary token. -/
theorem allow_burst_refill_scenario :
    ctrlAllow false 60 100 ⟨⟨[]⟩, setRate 1 3 0⟩ 0
      = (true, ⟨⟨[0]⟩, ⟨1, 3, 2, 0⟩⟩) ∧
    ctrlAllow false 60 100 ⟨⟨[0]⟩, ⟨1, 3, 2, 0⟩⟩ 0
      = (true, ⟨⟨[0]⟩, ⟨1, 3, 1, 0⟩⟩) ∧
    ctrlAllow false 60 100 ⟨⟨[0]⟩, ⟨1, 3, 1, 0⟩⟩ 0
      = (true, ⟨⟨[0]⟩, ⟨1, 3, 0, 0⟩⟩) ∧
    ctrlAllow false 60 100 ⟨⟨[0]⟩, ⟨1, 3, 0, 0⟩⟩ 0
      = (false, ⟨⟨[0]⟩, ⟨1, 3, 0, 0⟩⟩) ∧
    ctrlAllow false 60 100 ⟨⟨[0]⟩, ⟨1, 3, 0, 0⟩⟩ 1
      = (true, ⟨⟨[1, 0]⟩, ⟨1, 3, 0, 1⟩⟩) := by
  refine ⟨?_, ?_, ?_, ?_, ?_⟩ <;>
    · simp only [ctrlAllow, checkDistributedLimit, zRemRangeByScore, zAddTs,
        zCountRange, setRate, Limiter.allow, Limiter.refill]
      norm_num

/-- C4: along every sequence of `Allow` calls and `SetRate` overrides with
nondecreasing clock readings and nonnegative parameters, the bucket
satisfies `0 ≤ tokens ≤ burst`; an `allow` admits exactly when the
refilled token count is at least 1 and then decrements it by exactly 1;
and `SetRate` resets the token count to `burst`. -/
theorem tokenBucket_invariant (l : Limiter) (ops : List LimOp)
    (hInv : 0 ≤ l.tokens ∧ l.tokens ≤ (l.burst : ℚ) ∧ 0 ≤ l.rate)
    (hops : ∀ op ∈ ops, OpOk op)
    (htimes : List.Chain (· ≤ ·) l.lastUpdate (ops.map LimOp.time)) :
    (0 ≤ (applyOps l ops).tokens ∧ (applyOps l ops).tokens ≤ ((applyOps l ops).burst : ℚ))
    ∧ (∀ (m : Limiter) (now : ℚ),
        ((m.allow now).1 = true ↔ 1 ≤ m.refill now)
        ∧ ((m.allow now).1 = true → ((m.allow now).2).tokens = m.refill now - 1))
    ∧ (∀ (r : ℚ) (b : ℤ) (t : ℚ), (setRate r b t).tokens = (b : ℚ)) := by
  refine ⟨?_, ?_, fun r b t => rfl⟩
  · have := applyOps_inv l ops hInv hops htimes
    exact ⟨this.1, this.2.1⟩
  · intro m now
    unfold Limiter.allow
    split <;> simp_all

/-- Witness for the token-bucket invariant theorem at a concrete limiter
and a single timed `Allow` call. -/
theorem tokenBucket_invariant_witness :
    ((0 ≤ (3 : ℚ) ∧ (3 : ℚ) ≤ ((3 : ℤ) : ℚ) ∧ 0 ≤ (1 : ℚ))
      ∧ (∀ op ∈ [LimOp.allowCall 1], OpOk op)
      ∧ List.Chain (· ≤ ·) (0 : ℚ) ([LimOp.allowCall 1].map LimOp.time))
    ∧ ((0 ≤ (applyOps ⟨1, 3, 3, 0⟩ [LimOp.allowCall 1]).tokens
        ∧ (applyOps ⟨1, 3, 3, 0⟩ [LimOp.allowCall 1]).tokens
            ≤ ((applyOps ⟨1, 3, 3, 0⟩ [LimOp.allowCall 1]).burst : ℚ))
      ∧ (∀ (m : Limiter) (now : ℚ),
          ((m.allow now).1 = true ↔ 1 ≤ m.refill now)
          ∧ ((m.allow now).1 = true → ((m.allow now).2).tokens = m.refill now - 1))
      ∧ (∀ (r : ℚ) (b : ℤ) (t : ℚ), (setRate r b t).tokens = (b : ℚ))) := by
  have h1 : 0 ≤ (3 : ℚ) ∧ (3 : ℚ) ≤ ((3 : ℤ) : ℚ) ∧ 0 ≤ (1 : ℚ) := by norm_num
  have h2 : ∀ op ∈ [LimOp.allowCall 1], OpOk op := by
    intro op hop
    simp only [List.mem_singleton] at hop
    subst hop
    trivial
  have h3 : List.Chain (· ≤ ·) (0 : ℚ) ([LimOp.allowCall 1].map LimOp.time) := by
    refine List.Chain.cons ?_ List.Chain.nil
    norm_num [LimOp.time]
  exact ⟨⟨h1, h2, h3⟩, tokenBucket_invariant ⟨1, 3, 3, 0⟩ [LimOp.allowCall 1] h1 h2 h3⟩

/-- C8 counterexample: with threshold 1/2, `minRate = 0`, `maxRate = 10`,
current rate 0 and a stat stream with 0 throttled out of 1 request, the
throttle ratio 0 is below half the threshold and the rate 0 is below
`maxRate`, yet one adjustment tick leaves the rate at 0 instead of
strictly increasing it. -/
theorem adjustRateOnce_not_strictly_increasing :
    ((0 : ℤ) : ℚ) / ((1 : ℤ) : ℚ) < (1 / 2 : ℚ) / 2
    ∧ (0 : ℚ) < 10
    ∧ ¬ (0 : ℚ) < adjustRateOnce (1 / 2) 0 10 0 0 1 := by
  norm_num [adjustRateOnce]

/-- C8 (amended): for an origin with recorded stats (`requests > 0`),
nonnegative threshold and floor, and a positive current rate, one
adjustment tick moves the rate exactly as specified: above the threshold
it becomes `max(0.8·rate, minRate)` and strictly decreases whenever
`minRate < rate`; below half the threshold it becomes
`min(1.2·rate, maxRate)` and strictly increases whenever `rate < maxRate`;
otherwise it is unchanged. -/
theorem adjustRateOnce_direction (thr minRate maxRate rate : ℚ)
    (throttled requests : ℤ)
    (hthr : 0 ≤ thr) (hmin : 0 ≤ minRate) (hreq : 0 < requests)
    (hrate : 0 < rate) :
    (thr < (throttled : ℚ) / (requests : ℚ) →
      adjustRateOnce thr minRate maxRate rate throttled requests
          = max (rate * 0.8) minRate
      ∧ (minRate < rate →
          adjustRateOnce thr minRate maxRate rate throttled requests < rate))
    ∧ ((throttled : ℚ) / (requests : ℚ) < thr / 2 →
      adjustRateOnce thr minRate maxRate rate throttled requests
          = min (rate * 1.2) maxRate
      ∧ (rate < maxRate →
          rate < adjustRateOnce thr minRate maxRate rate throttled requests))
    ∧ (¬ thr < (throttled : ℚ) / (requests : ℚ) →
      ¬ (throttled : ℚ) / (requests : ℚ) < thr / 2 →
      adjustRateOnce thr minRate maxRate rate throttled requests = rate) := by
  refine ⟨fun h => ?_, fun h => ?_, fun h1 h2 => ?_⟩
  · rw [adjustRateOnce, if_pos h]
    refine ⟨rfl, fun hlt => ?_⟩
    have h08 : rate * (0.8 : ℚ) < rate := by nlinarith
    exact max_lt h08 hlt
  · have hnot : ¬ thr < (throttled : ℚ) / (requests : ℚ) := by
      intro hcon
      have : thr / 2 ≤ thr := by linarith
      linarith
    rw [adjustRateOnce, if_neg hnot, if_pos h]
    refine ⟨rfl, fun hlt => ?_⟩
    have h12 : rate < rate * (1.2 : ℚ) := by nlinarith
    exact lt_min h12 hlt
  · rw [adjustRateOnce, if_neg h1, if_neg h2]

/-- Witness for the adjustment-direction theorem: threshold 1/2, floor 1,
cap 10, rate 2, and 1 throttled request out of 1. -/
theorem adjustRateOnce_direction_witness :
    (0 ≤ (1 / 2 : ℚ) ∧ 0 ≤ (1 : ℚ) ∧ (0 : ℤ) < 1 ∧ (0 : ℚ) < 2)
    ∧ (((1 / 2 : ℚ) < ((1 : ℤ) : ℚ) / ((1 : ℤ) : ℚ) →
        adjustRateOnce (1 / 2) 1 10 2 1 1 = max (2 * 0.8) 1
        ∧ (1 < (2 : ℚ) → adjustRateOnce (1 / 2) 1 10 2 1 1 < 2))
      ∧ (((1 : ℤ) : ℚ) / ((1 : ℤ) : ℚ) < (1 / 2 : ℚ) / 2 →
        adjustRateOnce (1 / 2) 1 10 2 1 1 = min (2 * 1.2) 10
        ∧ ((2 : ℚ) < 10 → 2 < adjustRateOnce (1 / 2) 1 10 2 1 1))
      ∧ (¬ (1 / 2 : ℚ) < ((1 : ℤ) : ℚ) / ((1 : ℤ) : ℚ) →
        ¬ ((1 : ℤ) : ℚ) / ((1 : ℤ) : ℚ) < (1 / 2 : ℚ) / 2 →
        adjustRateOnce (1 / 2) 1 10 2 1 1 = 2)) := by
  have h1 : 0 ≤ (1 / 2 : ℚ) := by norm_num
  have h2 : 0 ≤ (1 : ℚ) := by norm_num
  have h3 : (0 : ℤ) < 1 := by norm_num
  have h4 : (0 : ℚ) < 2 := by norm_num
  exact ⟨⟨h1, h2, h3, h4⟩,
    adjustRateOnce_direction (1 / 2) 1 10 2 1 1 h1 h2 h3 h4⟩

theorem mem_zRemRangeByScore_of {st : WindowState} {lo hi s : ℤ}
    (hs : s ∈ st.entries) (h : ¬ (lo ≤ s ∧ s ≤ hi)) :
    s ∈ (zRemRangeByScore st lo hi).entries := by
  unfold zRemRangeByScore
  rw [List.mem_filter]
  refine ⟨hs, ?_⟩
  simp only [Bool.not_eq_true', decide_eq_false_iff_not]
  exact h

theorem mem_zAddTs_self (st : WindowState) (t : ℤ) :
    t ∈ (zAddTs st t).entries := by
  unfold zAddTs
  split
  · assumption
  · exact List.mem_cons_self _ _

theorem mem_zAddTs_of_mem {st : WindowState} {s : ℤ} (t : ℤ)
    (hs : s ∈ st.entries) : s ∈ (zAddTs st t).entries := by
  unfold zAddTs
  split
  · exact hs
  · exact List.mem_cons_of_mem _ hs

theorem mem_of_mem_zAddTs {st : WindowState} {s t : ℤ}
    (hs : s ∈ (zAddTs st t).entries) : s = t ∨ s ∈ st.entries := by
  unfold zAddTs at hs
  split at hs
  · exact Or.inr hs
  · rcases List.mem_cons.mp hs with h | h
    · exact Or.inl h
    · exact Or.inr h

theorem mem_of_mem_zRemRangeByScore {st : WindowState} {lo hi s : ℤ}
    (hs : s ∈ (zRemRangeByScore st lo hi).entries) : s ∈ st.entries :=
  List.mem_of_mem_filter hs

theorem nodup_zRemRangeByScore {st : WindowState} (lo hi : ℤ)
    (h : st.entries.Nodup) : (zRemRangeByScore st lo hi).entries.Nodup :=
  h.filter _

theorem nodup_zAddTs {st : WindowState} (t : ℤ)
    (h : st.entries.Nodup) : (zAddTs st t).entries.Nodup := by
  unfold zAddTs
  split
  · exact h
  · exact List.nodup_cons.mpr ⟨by assumption, h⟩

theorem runChecks_sublist (W L : ℤ) :
    ∀ (ts : List ℤ) (st : WindowState), List.Sublist (runChecks W L st ts) ts := by
  intro ts
  induction ts with
  | nil => intro st; simp [runChecks]
  | cons t ts ih =>
    intro st
    rw [runChecks]
    split
    · exact (ih _).cons₂ t
    · exact (ih _).cons t

/-- Core lemma for the sliding-window bound: starting from a duplicate-free
sorted set whose entries all precede the strictly increasing check times,
every passing check time `t'` bounds by `windowLimit` the number of prior
state entries and check times lying in the half-open window ending at
`t'`. -/
theorem sliding_key (W L : ℤ) :
    ∀ (ts : List ℤ) (st : WindowState), st.entries.Nodup →
      ts.Chain' (· < ·) → (∀ e ∈ st.entries, ∀ u ∈ ts, e < u) →
      ∀ t' ∈ runChecks W L st ts,
        (((st.entries ++ ts).filter (inWin t' W)).length : ℤ) ≤ L := by
  intro ts
  induction ts with
  | nil => intro st _ _ _ t' ht'; simp [runChecks] at ht'
  | cons t ts ih =>
    intro st hnd hts hsep t' ht'
    have hp : List.Pairwise (· < ·) (t :: ts) := List.chain'_iff_pairwise.mp hts
    have hlt_t_ts : ∀ u ∈ ts, t < u := (List.pairwise_cons.mp hp).1
    have hp' : List.Pairwise (· < ·) ts := (List.pairwise_cons.mp hp).2
    have hts' : ts.Chain' (· < ·) := List.chain'_iff_pairwise.mpr hp'
    set st1 := zRemRangeByScore st 0 (t - W) with hst1
    set st2 := zAddTs st1 t with hst2
    have hsurv : ∀ s ∈ st.entries, ¬ (0 ≤ s ∧ s ≤ t - W) → s ∈ st2.entries :=
      fun s hs h => mem_zAddTs_of_mem t (mem_zRemRangeByScore_of hs h)
    have hmem2 : ∀ s ∈ st2.entries, s = t ∨ s ∈ st.entries := by
      intro s hs
      rcases mem_of_mem_zAddTs hs with h | h
      · exact Or.inl h
      · exact Or.inr (mem_of_mem_zRemRangeByScore h)
    have hnd2 : st2.entries.Nodup := nodup_zAddTs t (nodup_zRemRangeByScore _ _ hnd)
    have hsep2 : ∀ e ∈ st2.entries, ∀ u ∈ ts, e < u := by
      intro e he u hu
      rcases hmem2 e he with rfl | he'
      · exact hlt_t_ts u hu
      · exact hsep e he' u (List.mem_cons_of_mem _ hu)
    have hndcons : (t :: ts).Nodup := hp.imp ne_of_lt
    have hndapp : (st.entries ++ t :: ts).Nodup := by
      rw [List.nodup_append]
      exact ⟨hnd, hndcons, fun a ha hb => absurd (hsep a ha a hb) (lt_irrefl a)⟩
    have h2eq : (checkDistributedLimit false W L st t).2 = st2 := rfl
    have hrest : t' ∈ runChecks W L st2 ts →
        (((st.entries ++ t :: ts).filter (inWin t' W)).length : ℤ) ≤ L := by
      intro htr
      have htts : t' ∈ ts := (runChecks_sublist W L ts st2).subset htr
      have htlt : t < t' := hlt_t_ts t' htts
      have hB := ih st2 hnd2 hts' hsep2 t' htr
      have hsub : (st.entries ++ t :: ts).filter (inWin t' W)
          ⊆ (st2.entries ++ ts).filter (inWin t' W) := by
        intro s hsmem
        rw [List.mem_filter] at hsmem ⊢
        obtain ⟨hsin, hsP⟩ := hsmem
        refine ⟨?_, hsP⟩
        have hPp : t' - W < s ∧ s ≤ t' := by simpa [inWin] using hsP
        rcases List.mem_append.mp hsin with hs1 | hs2
        · exact List.mem_append.mpr (Or.inl (hsurv s hs1 (by omega)))
        · rcases List.mem_cons.mp hs2 with rfl | hs3
          · exact List.mem_append.mpr (Or.inl (mem_zAddTs_self _ _))
          · exact List.mem_append.mpr (Or.inr hs3)
      have hndL : ((st.entries ++ t :: ts).filter (inWin t' W)).Nodup :=
        hndapp.filter _
      have hlen := (List.subperm_of_subset hndL hsub).length_le
      calc (((st.entries ++ t :: ts).filter (inWin t' W)).length : ℤ)
          ≤ (((st2.entries ++ ts).filter (inWin t' W)).length : ℤ) := by
            exact_mod_cast hlen
        _ ≤ L := hB
    rw [runChecks] at ht'
    by_cases hok : (checkDistributedLimit false W L st t).1 = true
    · rw [if_pos hok, h2eq] at ht'
      rcases List.mem_cons.mp ht' with rfl | htr
      · have hcnt_le : ((zCountRange st2 (t' - W) t' : ℕ) : ℤ) ≤ L := by
          have : (checkDistributedLimit false W L st t').1
              = decide (((zCountRange st2 (t' - W) t' : ℕ) : ℤ) ≤ L) := rfl
          rw [this] at hok
          exact of_decide_eq_true hok
        have hsub : (st.entries ++ t' :: ts).filter (inWin t' W)
            ⊆ st2.entries.filter (fun e => decide (t' - W ≤ e ∧ e ≤ t')) := by
          intro s hsmem
          rw [List.mem_filter] at hsmem ⊢
          obtain ⟨hsin, hsP⟩ := hsmem
          have hPp : t' - W < s ∧ s ≤ t' := by simpa [inWin] using hsP
          constructor
          · rcases List.mem_append.mp hsin with hs1 | hs2
            · exact hsurv s hs1 (by omega)
            · rcases List.mem_cons.mp hs2 with rfl | hs3
              · exact mem_zAddTs_self _ _
              · exact absurd (hlt_t_ts s hs3) (by omega)
          · simp only [decide_eq_true_eq]
            omega
        have hndL : ((st.entries ++ t' :: ts).filter (inWin t' W)).Nodup :=
          hndapp.filter _
        have hlen := (List.subperm_of_subset hndL hsub).length_le
        calc (((st.entries ++ t' :: ts).filter (inWin t' W)).length : ℤ)
            ≤ ((st2.entries.filter (fun e => decide (t' - W ≤ e ∧ e ≤ t'))).length : ℤ) := by
              exact_mod_cast hlen
          _ ≤ L := hcnt_le
      · exact hrest htr
    · rw [if_neg hok, h2eq] at ht'
      exact hrest ht'

/-- C2 counterexample: with `windowSize = 10` and `windowLimit = 1`, two
checks in the same second (timestamp 5) both pass, because the sorted-set
member is the timestamp string and the second `ZAdd` collides with the
first; the window `(0, 10]` then holds 2 admitted requests, exceeding the
limit 1. -/
theorem slidingWindow_collision_counterexample :
    runChecks 10 1 ⟨[]⟩ [5, 5] = [5, 5]
    ∧ ¬ ((((runChecks 10 1 ⟨[]⟩ [5, 5]).filter
          (fun s => decide (0 < s ∧ s ≤ 10))).length : ℤ) ≤ 1) := by
  decide

/-- C2 (amended): when the checks of one origin happen at strictly
increasing integer timestamps (at most one check per second), the number
of checks that pass inside any half-open window `(a, a + windowSize]`
never exceeds `windowLimit`. -/
theorem slidingWindow_bound (W L : ℤ) (hL : 0 ≤ L) (ts : List ℤ)
    (hts : ts.Chain' (· < ·)) (a : ℤ) :
    (((runChecks W L ⟨[]⟩ ts).filter
        (fun s => decide (a < s ∧ s ≤ a + W))).length : ℤ) ≤ L := by
  have hnd_ts : ts.Nodup := (List.chain'_iff_pairwise.mp hts).imp ne_of_lt
  have hnd_adm : (runChecks W L ⟨[]⟩ ts).Nodup :=
    (runChecks_sublist W L ts ⟨[]⟩).nodup hnd_ts
  set adm := runChecks W L ⟨[]⟩ ts with hadm
  set P : ℤ → Bool := fun s => decide (a < s ∧ s ≤ a + W) with hP
  by_cases hF : adm.filter P = []
  · rw [hF]; simpa using hL
  · have hne := List.maximum_ne_bot_of_ne_nil hF
    rcases hx : (adm.filter P).maximum with _ | m
    · exact absurd hx hne
    · have hmmem : m ∈ adm.filter P := List.maximum_mem hx
      rw [List.mem_filter] at hmmem
      obtain ⟨hmadm, hmP⟩ := hmmem
      have hmw : a < m ∧ m ≤ a + W := by simpa [hP] using hmP
      have hkey := sliding_key W L ts ⟨[]⟩ (by simp) hts (by simp) m hmadm
      rw [List.nil_append] at hkey
      have hsub : adm.filter P ⊆ ts.filter (inWin m W) := by
        intro s hs
        rw [List.mem_filter] at hs
        obtain ⟨hsadm, hsP⟩ := hs
        have hsw : a < s ∧ s ≤ a + W := by simpa [hP] using hsP
        have hsm : s ≤ m :=
          List.le_maximum_of_mem (List.mem_filter.mpr ⟨hsadm, hsP⟩) hx
        rw [List.mem_filter]
        refine ⟨(runChecks_sublist W L ts ⟨[]⟩).subset hsadm, ?_⟩
        simp only [inWin, decide_eq_true_eq]
        omega
      have hndF : (adm.filter P).Nodup := hnd_adm.filter _
      have hlen := (List.subperm_of_subset hndF hsub).length_le
      calc ((adm.filter P).length : ℤ)
          ≤ ((ts.filter (inWin m W)).length : ℤ) := by exact_mod_cast hlen
        _ ≤ L := hkey

/-- Witness for the amended sliding-window bound at a concrete trace:
window size 10, limit 2, checks at seconds 1, 4 and 20, window `(0, 10]`. -/
theorem slidingWindow_bound_witness :
    ((0 : ℤ) ≤ 2 ∧ ([1, 4, 20] : List ℤ).Chain' (· < ·))
    ∧ (((runChecks 10 2 ⟨[]⟩ [1, 4, 20]).filter
        (fun s => decide (0 < s ∧ s ≤ 0 + 10))).length : ℤ) ≤ 2 :=
  ⟨⟨by decide, by norm_num [List.chain'_cons]⟩,
    slidingWindow_bound 10 2 (by decide) [1, 4, 20]
      (by norm_num [List.chain'_cons]) 0⟩

end Ratelimit

namespace UrlCtl

theorem scanPriority_shape (c : Bool) (st : UState) :
    ∀ n : ℕ, (∃ r, scanPriority c st n = .ok r)
      ∨ scanPriority c st n = .error .noPending := by
  intro n
  induction n with
  | zero =>
    cases h : getURLByPriority c st 0 with
    | ok r => exact Or.inl ⟨r, by simp [scanPriority, h]⟩
    | error e => exact Or.inr (by simp [scanPriority, h])
  | succ n ih =>
    cases h : getURLByPriority c st ((n + 1 : ℕ) : ℤ) with
    | ok r => exact Or.inl ⟨r, by simp only [scanPriority, h]⟩
    | error e =>
      rcases ih with ⟨r, hr⟩ | hr
      · exact Or.inl ⟨r, by simp only [scanPriority, h, hr]⟩
      · exact Or.inr (by simp only [scanPriority, h, hr])

/-- C10: every `GetNextURL` call — over any store state and whether or not
the caller's context is cancelled — either returns a URL item or returns
the single generic no-pending error; bucket-level errors, including the
store's nil error and context cancellation, are never propagated. -/
theorem getNextURL_ok_or_noPending (cfg : UConfig) (c : Bool) (st : UState) :
    (∃ r, getNextURL cfg c st = .ok r)
      ∨ getNextURL cfg c st = .error .noPending :=
  scanPriority_shape c st cfg.maxPriority

/-- C3: the failing run. `AddURL` of a URL into an empty frontier
succeeds, but the subsequent `UpdateStatus` on that same URL fails with
the store's missing-key error, because `saveURL` never writes the
`prefix:url:<u>` record that `getURLItem` reads. -/
theorem updateStatus_after_addURL_errors :
    isOkE (addURL ⟨3, 10⟩ [] normSelf false uInit "http://example.com/" 0 1 0)
        = true
    ∧ errOf (updateStatus false
        (okStateD (addURL ⟨3, 10⟩ [] normSelf false uInit
          "http://example.com/" 0 1 0))
        "http://example.com/" "completed" 1) = some .redisNil := by
  decide

theorem getURLByPriority_ok {c : Bool} {st : UState} {p : ℤ}
    {it : URLItem} {st' : UState}
    (h : getURLByPriority c st p = .ok (it, st')) :
    it.priority = p ∧ st'.dedup = st.dedup ∧ st'.stringKV = st.stringKV := by
  unfold getURLByPriority at h
  cases c with
  | true => simp at h
  | false =>
    simp only [Bool.false_eq_true, if_false] at h
    cases hb : st.buckets p with
    | nil => rw [hb] at h; simp at h
    | cons u rest =>
      rw [hb] at h
      simp only [Except.ok.injEq, Prod.mk.injEq] at h
      obtain ⟨hit, hst⟩ := h
      subst hit
      subst hst
      exact ⟨rfl, rfl, rfl⟩

theorem scanPriority_ok_inv (c : Bool) :
    ∀ (n : ℕ) (st : UState) (it : URLItem) (st' : UState),
      scanPriority c st n = .ok (it, st') →
      (0 ≤ it.priority ∧ it.priority ≤ (n : ℤ))
      ∧ st'.dedup = st.dedup ∧ st'.stringKV = st.stringKV := by
  intro n
  induction n with
  | zero =>
    intro st it st' h
    cases hp : getURLByPriority c st 0 with
    | ok r =>
      simp only [scanPriority, hp, Except.ok.injEq] at h
      subst h
      have := getURLByPriority_ok hp
      exact ⟨⟨le_of_eq this.1.symm, by rw [this.1]; simp⟩, this.2⟩
    | error e =>
      simp only [scanPriority, hp] at h
      exact absurd h (by simp)
  | succ n ih =>
    intro st it st' h
    cases hp : getURLByPriority c st ((n + 1 : ℕ) : ℤ) with
    | ok r =>
      simp only [scanPriority, hp, Except.ok.injEq] at h
      subst h
      have := getURLByPriority_ok hp
      refine ⟨⟨?_, le_of_eq this.1⟩, this.2⟩
      rw [this.1]
      positivity
    | error e =>
      simp only [scanPriority, hp] at h
      have := ih st it st' h
      refine ⟨⟨this.1.1, le_trans this.1.2 ?_⟩, this.2⟩
      exact_mod_cast Nat.le_succ n

/-- C5 counterexample: with `MaxDepth = 3` and `MaxPriority = 10`, adding
a well-formed, unfiltered, non-duplicate URL at priority 11 > 10 into an
empty frontier succeeds — `AddURL` has no priority-ceiling check — where
the claim says the call rejects the URL. -/
theorem addURL_overlimit_priority_admitted :
    isOkE (addURL ⟨3, 10⟩ [] normSelf false uInit
      "http://example.com/" 0 11 0) = true := by
  decide

/-- Successful `AddURL` run: when the URL normalizes, the depth is within
bounds, the filters pass and the normalized URL is not yet in the dedup
set, `AddURL` adds it to the dedup set and appends it to its priority
bucket, touching nothing else. -/
theorem addURL_ok (cfg : UConfig) (filters : List (URLItem → Bool))
    (normalize : String → Option String) (st : UState) (u n : String)
    (d p now : ℤ) (hn : normalize u = some n) (hd : ¬ cfg.maxDepth < d)
    (hf : passFilters filters (mkItem n d p now) = true)
    (hdup : n ∉ st.dedup) :
    addURL cfg filters normalize false st u d p now
      = .ok ⟨st.dedup ++ [n],
          fun q => if q = p then st.buckets q ++ [n] else st.buckets q,
          st.stringKV⟩ := by
  simp only [addURL, hn]
  rw [if_neg hd, if_pos hf]
  simp only [existsURL, Bool.false_eq_true, if_false, decide_eq_false hdup]
  simp only [saveURL, Bool.false_eq_true, if_false, mkItem]
  rw [if_neg hdup]

/-- C5 (amended): `AddURL` performs no priority-ceiling check — a URL at
priority `p > MaxPriority` that passes the other checks is admitted into
the dedup set and appended to bucket `p`; and `GetNextURL`, which scans
only priorities `MaxPriority` down to 0, only ever returns items of
priority strictly below `p`, so that bucket is never popped. -/
theorem addURL_no_priority_ceiling (cfg : UConfig)
    (filters : List (URLItem → Bool)) (normalize : String → Option String)
    (st : UState) (u n : String) (d p now : ℤ)
    (hn : normalize u = some n) (hd : ¬ cfg.maxDepth < d)
    (hf : passFilters filters (mkItem n d p now) = true)
    (hdup : n ∉ st.dedup) (hp : (cfg.maxPriority : ℤ) < p) :
    (∃ st1, addURL cfg filters normalize false st u d p now = .ok st1
      ∧ n ∈ st1.dedup ∧ st1.buckets p = st.buckets p ++ [n])
    ∧ (∀ (c : Bool) (st2 : UState) (it : URLItem) (st3 : UState),
        getNextURL cfg c st2 = .ok (it, st3) → it.priority < p) := by
  constructor
  · refine ⟨_, addURL_ok cfg filters normalize st u n d p now hn hd hf hdup, ?_, ?_⟩
    · simp
    · simp
  · intro c st2 it st3 h
    have := (scanPriority_ok_inv c cfg.maxPriority st2 it st3 h).1.2
    exact lt_of_le_of_lt this hp

/-- Witness for the no-priority-ceiling theorem: `MaxPriority = 2`, a URL
admitted at priority 5 into the empty frontier. -/
theorem addURL_no_priority_ceiling_witness :
    (normSelf "http://a/" = some "http://a/"
      ∧ ¬ (3 : ℤ) < 0
      ∧ passFilters [] (mkItem "http://a/" 0 5 0) = true
      ∧ "http://a/" ∉ uInit.dedup
      ∧ (((2 : ℕ) : ℤ)) < 5)
    ∧ ((∃ st1, addURL ⟨3, 2⟩ [] normSelf false uInit "http://a/" 0 5 0 = .ok st1
        ∧ "http://a/" ∈ st1.dedup
        ∧ st1.buckets 5 = uInit.buckets 5 ++ ["http://a/"])
      ∧ (∀ (c : Bool) (st2 : UState) (it : URLItem) (st3 : UState),
          getNextURL ⟨3, 2⟩ c st2 = .ok (it, st3) → it.priority < 5)) :=
  ⟨⟨rfl, by decide, rfl, by decide, by decide⟩,
    addURL_no_priority_ceiling ⟨3, 2⟩ [] normSelf uInit "http://a/" "http://a/"
      0 5 0 rfl (by decide) rfl (by decide) (by decide)⟩

theorem getStep_dedup (cfg : UConfig) (st : UState) :
    (getStep cfg st).dedup = st.dedup := by
  unfold getStep
  cases h : getNextURL cfg false st with
  | ok r =>
    obtain ⟨it, st'⟩ := r
    exact (scanPriority_ok_inv false cfg.maxPriority st it st' h).2.1
  | error e => rfl

theorem iterate_getStep_dedup (cfg : UConfig) (k : ℕ) (st : UState) :
    ((getStep cfg)^[k] st).dedup = st.dedup := by
  induction k with
  | zero => rfl
  | succ k ih =>
    rw [Function.iterate_succ_apply', getStep_dedup, ih]

/-- C7: a URL that normalizes, is within the depth bound, passes the
filters whatever its creation time, and is not yet in the dedup set is
admitted by the first `AddURL`; after any number of intervening
`GetNextURL` calls — which pop priority buckets but never remove dedup
membership — a second `AddURL` of the same arguments is rejected as a
duplicate. -/
theorem addURL_dedup_idempotent (cfg : UConfig)
    (filters : List (URLItem → Bool)) (normalize : String → Option String)
    (st0 : UState) (u n : String) (d p now : ℤ)
    (hn : normalize u = some n) (hd : ¬ cfg.maxDepth < d)
    (hf : ∀ t : ℤ, passFilters filters (mkItem n d p t) = true)
    (hdup : n ∉ st0.dedup) :
    ∃ st1, addURL cfg filters normalize false st0 u d p now = .ok st1
      ∧ ∀ (k : ℕ) (now' : ℤ),
          addURL cfg filters normalize false ((getStep cfg)^[k] st1) u d p now'
            = .error .duplicate := by
  refine ⟨⟨st0.dedup ++ [n],
      fun q => if q = p then st0.buckets q ++ [n] else st0.buckets q,
      st0.stringKV⟩,
    addURL_ok cfg filters normalize st0 u n d p now hn hd (hf now) hdup, ?_⟩
  intro k now'
  have hmem : n ∈ ((getStep cfg)^[k]
      (⟨st0.dedup ++ [n],
        fun q => if q = p then st0.buckets q ++ [n] else st0.buckets q,
        st0.stringKV⟩ : UState)).dedup := by
    rw [iterate_getStep_dedup]
    simp
  simp only [addURL, hn]
  rw [if_neg hd, if_pos (hf now')]
  simp only [existsURL, Bool.false_eq_true, if_false, decide_eq_true hmem]

/-- Witness for dedup idempotence: a URL admitted at priority 1 into the
empty frontier, then re-added. -/
theorem addURL_dedup_idempotent_witness :
    (normSelf "http://a/" = some "http://a/"
      ∧ ¬ (3 : ℤ) < 0
      ∧ (∀ t : ℤ, passFilters [] (mkItem "http://a/" 0 1 t) = true)
      ∧ "http://a/" ∉ uInit.dedup)
    ∧ (∃ st1, addURL ⟨3, 5⟩ [] normSelf false uInit "http://a/" 0 1 0 = .ok st1
        ∧ ∀ (k : ℕ) (now' : ℤ),
            addURL ⟨3, 5⟩ [] normSelf false ((getStep ⟨3, 5⟩)^[k] st1)
              "http://a/" 0 1 now' = .error .duplicate) :=
  ⟨⟨rfl, by decide, fun t => rfl, by decide⟩,
    addURL_dedup_idempotent ⟨3, 5⟩ [] normSelf uInit "http://a/" "http://a/"
      0 1 0 rfl (by decide) (fun t => rfl) (by decide)⟩

theorem scanPriority_skip (c : Bool) (st : UState) (j : ℕ) :
    ∀ m : ℕ, j ≤ m → (∀ q : ℕ, j < q → q ≤ m → st.buckets (q : ℤ) = []) →
      scanPriority c st m = scanPriority c st j := by
  intro m
  induction m with
  | zero =>
    intro hj _
    rw [Nat.le_zero.mp hj]
  | succ m ih =>
    intro hj hemp
    rcases eq_or_lt_of_le hj with rfl | hlt
    · rfl
    · have hjm : j ≤ m := Nat.lt_succ_iff.mp hlt
      have hb : st.buckets ((m + 1 : ℕ) : ℤ) = [] :=
        hemp (m + 1) hlt (le_refl _)
      have hpop : ∃ e, getURLByPriority c st ((m + 1 : ℕ) : ℤ) = .error e := by
        cases c with
        | true => exact ⟨.ctxCanceled, rfl⟩
        | false =>
          exact ⟨.redisNil,
            by simp only [getURLByPriority, Bool.false_eq_true, if_false, hb]⟩
      obtain ⟨e, he⟩ := hpop
      calc scanPriority c st (m + 1) = scanPriority c st m := by
            simp only [scanPriority, he]
        _ = scanPriority c st j := ih hjm fun q h1 h2 => hemp q h1 (Nat.le_succ_of_le h2)

theorem scanPriority_pop (st : UState) (j m : ℕ) (u : String)
    (rest : List String) (hj : j ≤ m)
    (hemp : ∀ q : ℕ, j < q → q ≤ m → st.buckets (q : ℤ) = [])
    (hb : st.buckets (j : ℤ) = u :: rest) :
    scanPriority false st m
      = .ok (⟨u, 0, (j : ℤ), "pending", 0, 0⟩,
          { st with buckets := fun q => if q = (j : ℤ) then rest else st.buckets q }) := by
  rw [scanPriority_skip false st j m hj hemp]
  cases j with
  | zero =>
    simp only [scanPriority, getURLByPriority, Bool.false_eq_true, if_false]
    rw [show ((0 : ℕ) : ℤ) = (0 : ℤ) from rfl] at hb ⊢
    rw [hb]
  | succ jj =>
    simp only [scanPriority, getURLByPriority, Bool.false_eq_true, if_false]
    rw [hb]

/-- C6: starting from an empty frontier with `MaxPriority ≥ 5`, four
distinct URLs admitted at priorities 5, 1, 5, 3 in that order are returned
by four `GetNextURL` calls in strict priority order with FIFO inside a
bucket: the first priority-5 URL, the second priority-5 URL, the
priority-3 URL, then the priority-1 URL. -/
theorem priority_ordering_scenario (cfg : UConfig)
    (normalize : String → Option String)
    (u1 u2 u3 u4 n1 n2 n3 n4 : String) (d1 d2 d3 d4 t1 t2 t3 t4 : ℤ)
    (h5 : 5 ≤ cfg.maxPriority)
    (hn1 : normalize u1 = some n1) (hn2 : normalize u2 = some n2)
    (hn3 : normalize u3 = some n3) (hn4 : normalize u4 = some n4)
    (hd1 : ¬ cfg.maxDepth < d1) (hd2 : ¬ cfg.maxDepth < d2)
    (hd3 : ¬ cfg.maxDepth < d3) (hd4 : ¬ cfg.maxDepth < d4)
    (h12 : n1 ≠ n2) (h13 : n1 ≠ n3) (h14 : n1 ≠ n4)
    (h23 : n2 ≠ n3) (h24 : n2 ≠ n4) (h34 : n3 ≠ n4) :
    ∃ s1 s2 s3 s4 q1 q2 q3 q4,
      addURL cfg [] normalize false uInit u1 d1 5 t1 = .ok s1
      ∧ addURL cfg [] normalize false s1 u2 d2 1 t2 = .ok s2
      ∧ addURL cfg [] normalize false s2 u3 d3 5 t3 = .ok s3
      ∧ addURL cfg [] normalize false s3 u4 d4 3 t4 = .ok s4
      ∧ getNextURL cfg false s4 = .ok (⟨n1, 0, 5, "pending", 0, 0⟩, q1)
      ∧ getNextURL cfg false q1 = .ok (⟨n3, 0, 5, "pending", 0, 0⟩, q2)
      ∧ getNextURL cfg false q2 = .ok (⟨n4, 0, 3, "pending", 0, 0⟩, q3)
      ∧ getNextURL cfg false q3 = .ok (⟨n2, 0, 1, "pending", 0, 0⟩, q4) := by
  set S1 : UState := ⟨uInit.dedup ++ [n1],
    fun q => if q = (5 : ℤ) then uInit.buckets q ++ [n1] else uInit.buckets q,
    uInit.stringKV⟩ with hS1
  set S2 : UState := ⟨S1.dedup ++ [n2],
    fun q => if q = (1 : ℤ) then S1.buckets q ++ [n2] else S1.buckets q,
    S1.stringKV⟩ with hS2
  set S3 : UState := ⟨S2.dedup ++ [n3],
    fun q => if q = (5 : ℤ) then S2.buckets q ++ [n3] else S2.buckets q,
    S2.stringKV⟩ with hS3
  set S4 : UState := ⟨S3.dedup ++ [n4],
    fun q => if q = (3 : ℤ) then S3.buckets q ++ [n4] else S3.buckets q,
    S3.stringKV⟩ with hS4
  have hdup2 : n2 ∉ S1.dedup := by
    rw [hS1]
    simp [uInit]
    exact h12.symm
  have hdup3 : n3 ∉ S2.dedup := by
    rw [hS2, hS1]
    simp [uInit, not_or]
    exact ⟨h13.symm, h23.symm⟩
  have hdup4 : n4 ∉ S3.dedup := by
    rw [hS3, hS2, hS1]
    simp [uInit, not_or]
    exact ⟨h14.symm, h24.symm, h34.symm⟩
  have e1 : addURL cfg [] normalize false uInit u1 d1 5 t1 = .ok S1 := by
    rw [hS1]
    exact addURL_ok cfg [] normalize uInit u1 n1 d1 5 t1 hn1 hd1 rfl
      (List.not_mem_nil n1)
  have e2 : addURL cfg [] normalize false S1 u2 d2 1 t2 = .ok S2 := by
    rw [hS2]
    exact addURL_ok cfg [] normalize S1 u2 n2 d2 1 t2 hn2 hd2 rfl hdup2
  have e3 : addURL cfg [] normalize false S2 u3 d3 5 t3 = .ok S3 := by
    rw [hS3]
    exact addURL_ok cfg [] normalize S2 u3 n3 d3 5 t3 hn3 hd3 rfl hdup3
  have e4 : addURL cfg [] normalize false S3 u4 d4 3 t4 = .ok S4 := by
    rw [hS4]
    exact addURL_ok cfg [] normalize S3 u4 n4 d4 3 t4 hn4 hd4 rfl hdup4
  have hb5S4 : S4.buckets (5 : ℤ) = [n1, n3] := by
    rw [hS4, hS3, hS2, hS1]
    norm_num [uInit]
  have hb3S4 : S4.buckets (3 : ℤ) = [n4] := by
    rw [hS4, hS3, hS2, hS1]
    norm_num [uInit]
  have hb1S4 : S4.buckets (1 : ℤ) = [n2] := by
    rw [hS4, hS3, hS2, hS1]
    norm_num [uInit]
  have habove : ∀ q : ℤ, q ≠ 5 → q ≠ 3 → q ≠ 1 → S4.buckets q = [] := by
    intro q c5 c3 c1
    rw [hS4, hS3, hS2, hS1]
    simp [uInit, c5, c3, c1]
  set Q1 : UState := ⟨S4.dedup,
    fun q => if q = (5 : ℤ) then [n3] else S4.buckets q, S4.stringKV⟩ with hQ1
  set Q2 : UState := ⟨Q1.dedup,
    fun q => if q = (5 : ℤ) then [] else Q1.buckets q, Q1.stringKV⟩ with hQ2
  set Q3 : UState := ⟨Q2.dedup,
    fun q => if q = (3 : ℤ) then [] else Q2.buckets q, Q2.stringKV⟩ with hQ3
  set Q4 : UState := ⟨Q3.dedup,
    fun q => if q = (1 : ℤ) then [] else Q3.buckets q, Q3.stringKV⟩ with hQ4
  have g1 : getNextURL cfg false S4 = .ok (⟨n1, 0, 5, "pending", 0, 0⟩, Q1) := by
    rw [getNextURL, hQ1]
    exact scanPriority_pop S4 5 cfg.maxPriority n1 [n3] h5
      (fun q h1 _ => habove q (by omega) (by omega) (by omega)) hb5S4
  have hemp2 : ∀ q : ℕ, 5 < q → q ≤ cfg.maxPriority → Q1.buckets (q : ℤ) = [] := by
    intro q h1 _
    have c5 : (q : ℤ) ≠ 5 := by omega
    show (if (q : ℤ) = (5 : ℤ) then [n3] else S4.buckets (q : ℤ)) = []
    rw [if_neg c5]
    exact habove _ c5 (by omega) (by omega)
  have hb5Q1 : Q1.buckets ((5 : ℕ) : ℤ) = n3 :: [] := by
    show (if ((5 : ℕ) : ℤ) = (5 : ℤ) then [n3] else S4.buckets ((5 : ℕ) : ℤ))
        = n3 :: []
    rw [if_pos (by norm_num)]
  have g2 : getNextURL cfg false Q1 = .ok (⟨n3, 0, 5, "pending", 0, 0⟩, Q2) := by
    rw [getNextURL, hQ2]
    exact scanPriority_pop Q1 5 cfg.maxPriority n3 [] h5 hemp2 hb5Q1
  have hemp3 : ∀ q : ℕ, 3 < q → q ≤ cfg.maxPriority → Q2.buckets (q : ℤ) = [] := by
    intro q h1 _
    show (if (q : ℤ) = (5 : ℤ) then [] else Q1.buckets (q : ℤ)) = []
    by_cases c5 : (q : ℤ) = 5
    · rw [if_pos c5]
    · rw [if_neg c5]
      show (if (q : ℤ) = (5 : ℤ) then [n3] else S4.buckets (q : ℤ)) = []
      rw [if_neg c5]
      exact habove _ c5 (by omega) (by omega)
  have hb3Q2 : Q2.buckets ((3 : ℕ) : ℤ) = n4 :: [] := by
    show (if ((3 : ℕ) : ℤ) = (5 : ℤ) then [] else Q1.buckets ((3 : ℕ) : ℤ))
        = n4 :: []
    rw [if_neg (by norm_num)]
    show (if ((3 : ℕ) : ℤ) = (5 : ℤ) then [n3] else S4.buckets ((3 : ℕ) : ℤ))
        = n4 :: []
    rw [if_neg (by norm_num)]
    show S4.buckets ((3 : ℕ) : ℤ) = n4 :: []
    rw [show ((3 : ℕ) : ℤ) = (3 : ℤ) by norm_num]
    exact hb3S4
  have g3 : getNextURL cfg false Q2 = .ok (⟨n4, 0, 3, "pending", 0, 0⟩, Q3) := by
    rw [getNextURL, hQ3]
    exact scanPriority_pop Q2 3 cfg.maxPriority n4 [] (by omega) hemp3 hb3Q2
  have hemp4 : ∀ q : ℕ, 1 < q → q ≤ cfg.maxPriority → Q3.buckets (q : ℤ) = [] := by
    intro q h1 _
    show (if (q : ℤ) = (3 : ℤ) then [] else Q2.buckets (q : ℤ)) = []
    by_cases c3 : (q : ℤ) = 3
    · rw [if_pos c3]
    · rw [if_neg c3]
      show (if (q : ℤ) = (5 : ℤ) then [] else Q1.buckets (q : ℤ)) = []
      by_cases c5 : (q : ℤ) = 5
      · rw [if_pos c5]
      · rw [if_neg c5]
        show (if (q : ℤ) = (5 : ℤ) then [n3] else S4.buckets (q : ℤ)) = []
        rw [if_neg c5]
        exact habove _ c5 c3 (by omega)
  have hb1Q3 : Q3.buckets ((1 : ℕ) : ℤ) = n2 :: [] := by
    show (if ((1 : ℕ) : ℤ) = (3 : ℤ) then [] else Q2.buckets ((1 : ℕ) : ℤ))
        = n2 :: []
    rw [if_neg (by norm_num)]
    show (if ((1 : ℕ) : ℤ) = (5 : ℤ) then [] else Q1.buckets ((1 : ℕ) : ℤ))
        = n2 :: []
    rw [if_neg (by norm_num)]
    show (if ((1 : ℕ) : ℤ) = (5 : ℤ) then [n3] else S4.buckets ((1 : ℕ) : ℤ))
        = n2 :: []
    rw [if_neg (by norm_num)]
    show S4.buckets ((1 : ℕ) : ℤ) = n2 :: []
    rw [show ((1 : ℕ) : ℤ) = (1 : ℤ) by norm_num]
    exact hb1S4
  have g4 : getNextURL cfg false Q3 = .ok (⟨n2, 0, 1, "pending", 0, 0⟩, Q4) := by
    rw [getNextURL, hQ4]
    exact scanPriority_pop Q3 1 cfg.maxPriority n2 [] (by omega) hemp4 hb1Q3
  exact ⟨S1, S2, S3, S4, Q1, Q2, Q3, Q4, e1, e2, e3, e4, g1, g2, g3, g4⟩

/-- Witness for the priority-ordering scenario: `MaxPriority = 5`, URLs
"a", "b", "c", "d" admitted at priorities 5, 1, 5, 3. -/
theorem priority_ordering_scenario_witness :
    (5 ≤ (⟨3, 5⟩ : UConfig).maxPriority
      ∧ normSelf "a" = some "a" ∧ normSelf "b" = some "b"
      ∧ normSelf "c" = some "c" ∧ normSelf "d" = some "d"
      ∧ ¬ (3 : ℤ) < 0
      ∧ "a" ≠ "b" ∧ "a" ≠ "c" ∧ "a" ≠ "d"
      ∧ "b" ≠ "c" ∧ "b" ≠ "d" ∧ "c" ≠ "d")
    ∧ (∃ s1 s2 s3 s4 q1 q2 q3 q4,
        addURL ⟨3, 5⟩ [] normSelf false uInit "a" 0 5 0 = .ok s1
        ∧ addURL ⟨3, 5⟩ [] normSelf false s1 "b" 0 1 0 = .ok s2
        ∧ addURL ⟨3, 5⟩ [] normSelf false s2 "c" 0 5 0 = .ok s3
        ∧ addURL ⟨3, 5⟩ [] normSelf false s3 "d" 0 3 0 = .ok s4
        ∧ getNextURL ⟨3, 5⟩ false s4 = .ok (⟨"a", 0, 5, "pending", 0, 0⟩, q1)
        ∧ getNextURL ⟨3, 5⟩ false q1 = .ok (⟨"c", 0, 5, "pending", 0, 0⟩, q2)
        ∧ getNextURL ⟨3, 5⟩ false q2 = .ok (⟨"d", 0, 3, "pending", 0, 0⟩, q3)
        ∧ getNextURL ⟨3, 5⟩ false q3 = .ok (⟨"b", 0, 1, "pending", 0, 0⟩, q4)) :=
  ⟨⟨by decide, rfl, rfl, rfl, rfl, by decide, by decide, by decide, by decide,
      by decide, by decide, by decide⟩,
    priority_ordering_scenario ⟨3, 5⟩ normSelf "a" "b" "c" "d" "a" "b" "c" "d"
      0 0 0 0 0 0 0 0 (by decide) rfl rfl rfl rfl (by decide) (by decide)
      (by decide) (by decide) (by decide) (by decide) (by decide) (by decide)
      (by decide) (by decide)⟩

end UrlCtl

namespace Queue

theorem workerCycleFail_step (st : QState) (h : retryLoopInv st) :
    retryLoopInv (workerCycleFail 2 st)
    ∧ (workerCycleFail 2 st).invocations = st.invocations + 1 := by
  obtain ⟨⟨it, hpend, hret⟩, hfail, hcomp⟩ := h
  unfold workerCycleFail
  rw [hpend]
  dsimp only
  rw [hret]
  rw [if_pos (by norm_num)]
  constructor
  · refine ⟨⟨⟨st.nextId, it.payload, 0, "pending", ""⟩, ?_, rfl⟩, hfail, hcomp⟩
    show (if "pending" = "pending" then
        (if "pending" = "processing" then
            (if "pending" = "pending" then [] else st.rlists "pending")
              ++ [{ it with status := "processing" }]
          else if "pending" = "pending" then [] else st.rlists "pending")
          ++ [⟨st.nextId, it.payload, 0, "pending", ""⟩]
      else
        if "pending" = "processing" then
          (if "pending" = "pending" then [] else st.rlists "pending")
            ++ [{ it with status := "processing" }]
        else if "pending" = "pending" then [] else st.rlists "pending")
        = [⟨st.nextId, it.payload, 0, "pending", ""⟩]
    rw [if_pos rfl, if_neg (by decide), if_pos rfl]
    rfl
  · rfl

theorem workerCycleFail_iterate (k : ℕ) :
    retryLoopInv ((workerCycleFail 2)^[k] (push qInit 0))
    ∧ ((workerCycleFail 2)^[k] (push qInit 0)).invocations = k := by
  induction k with
  | zero =>
    refine ⟨⟨⟨⟨0, 0, 0, "pending", ""⟩, ?_, rfl⟩, rfl, rfl⟩, rfl⟩
    show (if "pending" = "pending" then
        qInit.rlists "pending" ++ [⟨qInit.nextId, 0, 0, "pending", ""⟩]
      else qInit.rlists "pending") = [⟨0, 0, 0, "pending", ""⟩]
    rw [if_pos rfl]
    rfl
  | succ k ih =>
    rw [Function.iterate_succ_apply']
    have hs := workerCycleFail_step _ ih.1
    exact ⟨hs.1, by rw [hs.2, ih.2]⟩

/-- C1: the failing run with `maxRetries = 2` and an always-failing
handler. After any number `k` of worker cycles following a single `Push`,
the handler has been invoked exactly `k` times, the pending list still
holds one copy whose `Retries` is 0 — `handleFailure` re-enqueues through
`Push(item.Data)`, which resets the retry counter — and both the failed
and completed archives are still empty. In particular the handler is
invoked a 4th time and the item is never archived, against the expected
3 invocations followed by one failed-archive insert. -/
theorem retry_ceiling_violated (k : ℕ) :
    ((workerCycleFail 2)^[k] (push qInit 0)).invocations = k
    ∧ ((workerCycleFail 2)^[k] (push qInit 0)).failedArch = []
    ∧ ((workerCycleFail 2)^[k] (push qInit 0)).completedArch = []
    ∧ ∃ it : QItem,
        ((workerCycleFail 2)^[k] (push qInit 0)).rlists "pending" = [it]
        ∧ it.retries = 0 := by
  have h := workerCycleFail_iterate k
  exact ⟨h.2, h.1.2.1, h.1.2.2, h.1.1⟩

end Queue

end JapanBigdata
